import Mathlib

/-!
Verification of the asynchronous block-batched frame delivery pipeline of
gmanim (src/video_backend/mod.rs).

The embedding models:
* the producer side of `VideoBackendController` (`write_frame`, `end`):
  an open block, the shared block queue, and the trace of `FrameMessage`s
  sent on the wake channel;
* the worker loop spawned in `VideoBackendController::new`, run over a
  finished message trace (`workerRun`) and, for concurrency claims, as a
  small-step interleaving relation (`Step`/`Reach`);
* the alternative worker loop `VideoBackend::write_frame_background`
  with its `Sleeping` state (`wfbRun`);
* the result-discarding behaviour of `VideoBackend::write_frame` and of
  `VideoBackendController::end` towards `JoinHandle::join`.

Frames are opaque values of a type parameter, matching the opaque byte
buffers (`Vec<u8>`) of the source.
-/

namespace Gmanim

/-- `const BLOCK_SIZE: usize = 240;` (mod.rs line 8). -/
def BLOCK_SIZE : Nat := 240

/-- `enum FrameMessage { Frame, End }` (mod.rs lines 121-124): the values
carried by the mpsc wake channel. -/
inductive FrameMessage
  | Frame
  | End
deriving DecidableEq, Repr

/-- `enum VideoBackendState { Running, Sleeping }` (mod.rs lines 131-135). -/
inductive VideoBackendState
  | Running
  | Sleeping
deriving DecidableEq, Repr

/-- Producer-side state of `VideoBackendController` (mod.rs lines 303-310):
the open block (`block: Option<Vec<Vec<u8>>>`, always `Some` in normal
operation), the shared block queue, and the trace of messages sent on the
wake channel so far. -/
structure PState (α : Type) where
  block : List α
  queue : List (List α)
  msgs : List FrameMessage
deriving DecidableEq, Repr

/-- State of a freshly constructed controller (`VideoBackendController::new`
lines 313-355): empty open block, empty queue, nothing sent. -/
def initPState (α : Type) : PState α := ⟨[], [], []⟩

/-- Embedding of `VideoBackendController::write_frame` (mod.rs 356-365):
push the frame onto the open block; when the block's length reaches
`BLOCK_SIZE` the block is moved onto the block queue (`block.replace(Vec::new())`)
and one `FrameMessage::Frame` is sent. -/
def writeFrame (s : PState α) (f : α) : PState α :=
  if (s.block ++ [f]).length = BLOCK_SIZE then
    { block := [],
      queue := s.queue ++ [s.block ++ [f]],
      msgs := s.msgs ++ [FrameMessage.Frame] }
  else
    { s with block := s.block ++ [f] }

/-- Repeated calls to `write_frame` by the single producer. -/
def submitAll (s : PState α) (fs : List α) : PState α :=
  fs.foldl writeFrame s

/-- Producer-side effect of `VideoBackendController::end` (mod.rs 366-369):
it only sends `FrameMessage::End`; the open block and the queue are left
untouched (no force-seal, no flush). -/
def endSignal (s : PState α) : PState α :=
  { s with msgs := s.msgs ++ [FrameMessage.End] }

/-- Why the worker loop spawned in `VideoBackendController::new`
(mod.rs 327-347) exited. -/
inductive StopReason
  | endMsg
  | disconnected
  | emptyQueue
deriving DecidableEq, Repr

/-- Embedding of the worker loop spawned in `VideoBackendController::new`
(mod.rs 327-347), run over a finished message trace: `recv` takes the next
message (an exhausted trace models a disconnected channel, the `Err` arm);
`FrameMessage::End` breaks out of the loop; on `FrameMessage::Frame` the
worker pops the front block (`pop_front`), breaking if the queue is empty
(the `None` arm, line 338), otherwise forwarding each frame of the block,
in order, to `VideoBackend::write_frame` (lines 342-345). Returns the
frames passed to the sink and the reason the loop exited. -/
def workerRun (msgs : List FrameMessage) (queue : List (List α)) :
    List α × StopReason :=
  match msgs with
  | [] => ([], StopReason.disconnected)
  | FrameMessage.End :: _ => ([], StopReason.endMsg)
  | FrameMessage.Frame :: ms =>
    match queue with
    | [] => ([], StopReason.emptyQueue)
    | b :: rest =>
      let r := workerRun ms rest
      (b ++ r.1, r.2)

/-- Full sequential run: the producer submits `fs` one frame at a time,
then calls `end`; afterwards the worker drains the complete message trace
against the queue the producer built. -/
def runToShutdown (fs : List α) : List α × StopReason :=
  workerRun (endSignal (submitAll (initPState α) fs)).msgs
    (endSignal (submitAll (initPState α) fs)).queue

/-- The frames the sink observes over a full submit-then-shutdown run. -/
def delivered (fs : List α) : List α := (runToShutdown fs).1

/-- Embedding of `VideoBackend::write_frame_background` (mod.rs 151-187),
the worker loop that owns the shared `VideoBackendState` slot. One
iteration pops the front of the frame queue; if a frame is there it is
written and the loop continues; if the queue is empty the shared state is
set to `Sleeping` and the thread blocks in `rx.recv()`: a received
`FrameMessage::Frame` just re-enters the loop (re-checking the queue),
`FrameMessage::End` breaks. `chan` is the finite schedule of messages the
channel will yield; an exhausted schedule leaves the thread blocked in
`recv`. Returns the frames written, the final contents of the shared
state slot, and whether the loop was exited (`true`) or is still blocked
awaiting a message (`false`). -/
def wfbRun (st : VideoBackendState) (queue : List α) (chan : List FrameMessage) :
    List α × VideoBackendState × Bool :=
  match queue, chan with
  | f :: rest, ms =>
    let r := wfbRun st rest ms
    (f :: r.1, r.2)
  | [], [] => ([], VideoBackendState.Sleeping, false)
  | [], FrameMessage.Frame :: ms => wfbRun VideoBackendState.Sleeping [] ms
  | [], FrameMessage.End :: _ => ([], VideoBackendState.Sleeping, true)
termination_by queue.length + chan.length
decreasing_by
  all_goals simp only [List.length_cons, List.length_nil]
  all_goals omega

/-- Result of one `write_all` call on the sink (pipe stdin or file),
mod.rs lines 142 and 146: either success or an I/O error. -/
inductive WriteResult
  | ok
  | ioError
deriving DecidableEq, Repr

/-- Embedding of `VideoBackend::write_frame` (mod.rs 138-150): it calls
`write_all` and discards the returned `Result` (no `?`, no `unwrap`), and
its own return type is the unit type, so no failure can reach the caller. -/
def vbWriteFrame (res : WriteResult) : Unit := ()

/-- The worker's delivery of one block (the `for f in frame_list` loop,
mod.rs 343-345), threaded with an oracle giving the `write_all` result of
the i-th write overall: each result is discarded by `vbWriteFrame` and the
loop continues with the next frame unconditionally. Returns the frames
passed to the sink. -/
def drainBlock (oracle : Nat → WriteResult) (i : Nat) : List α → List α
  | [] => []
  | f :: rest =>
    let _ := vbWriteFrame (oracle i)
    f :: drainBlock oracle (i + 1) rest

/-- Delivery of a sequence of dequeued blocks, continuing the write index
across blocks. -/
def drainBlocks (oracle : Nat → WriteResult) (i : Nat) : List (List α) → List α
  | [] => []
  | b :: bs => drainBlock oracle i b ++ drainBlocks oracle (i + b.length) bs

/-- Outcome of `JoinHandle::join` in `VideoBackendController::end`
(mod.rs 368): `Ok` when the worker thread ran to completion, `Err` when it
panicked. -/
inductive JoinResult
  | ok
  | panicked
deriving DecidableEq, Repr

/-- What the caller of `VideoBackendController::end` (mod.rs 366-369)
observes as a function of the join outcome: the code writes
`self.background_thread_handler.join();`, discarding the `Result`, and
`end` returns the unit type, so the caller observes nothing. -/
def endReturn (jr : JoinResult) : Unit := ()

/-! ### Interleaved two-thread model

For the concurrency claims the producer (caller of `write_frame`/`end`)
and the worker spawned in `VideoBackendController::new` are modelled as a
small-step transition system over the shared state: the mutex-guarded
block queue and the mpsc channel (`chan` holds messages sent but not yet
received). The producer's `write_frame` performs the enqueue (under the
queue mutex) and the subsequent `sender.send` as two separate steps, with
the phase `mustSend` in between, exactly mirroring lines 359-363 where
`push_back` happens strictly before `send`. The worker's receive of a
`Frame` message, the `pop_front`, and the write loop over the popped
block form one worker turn here: the write loop touches only the sink and
the popped (now worker-owned) block, never producer-shared state. The
`Sender` lives inside the controller until `end` has joined the worker,
so the worker's `recv` can never see a disconnected channel in this
lifecycle and no such step exists. -/

/-- Producer phase: `idle` between calls, `mustSend` after `write_frame`
pushed a sealed block onto the queue but before `sender.send` on line 363
executed, `done` once `end` has sent `FrameMessage::End`. -/
inductive PPhase
  | idle
  | mustSend
  | done
deriving DecidableEq, Repr

/-- Whole-system state of the interleaved model. `submitted` is the
history of frames passed to `write_frame` so far, `toSubmit` the frames
the producer still intends to submit, `written` the frames the worker has
passed to the sink, and `wstop` the reason the worker loop exited, if it
has. -/
structure Sys (α : Type) where
  submitted : List α
  toSubmit : List α
  phase : PPhase
  block : List α
  queue : List (List α)
  chan : List FrameMessage
  written : List α
  wstop : Option StopReason
deriving DecidableEq, Repr

/-- Initial state: fresh controller (`VideoBackendController::new`),
producer intending to submit `fs`. -/
def initSys (fs : List α) : Sys α :=
  ⟨[], fs, PPhase.idle, [], [], [], [], none⟩

/-- One transition of the two-thread system. -/
inductive Step : Sys α → Sys α → Prop
  /-- `write_frame` (356-365), block does not reach `BLOCK_SIZE`: only the
  open block grows. -/
  | submitNoSeal (s : Sys α) (f : α) (rest : List α)
      (hts : s.toSubmit = f :: rest) (hph : s.phase = PPhase.idle)
      (hlen : (s.block ++ [f]).length ≠ BLOCK_SIZE) :
      Step s { s with
        submitted := s.submitted ++ [f], toSubmit := rest,
        block := s.block ++ [f] }
  /-- `write_frame`, block reaches `BLOCK_SIZE`: the sealed block is pushed
  onto the queue under the lock (lines 359-362); the send of
  `FrameMessage::Frame` is still pending. -/
  | submitSeal (s : Sys α) (f : α) (rest : List α)
      (hts : s.toSubmit = f :: rest) (hph : s.phase = PPhase.idle)
      (hlen : (s.block ++ [f]).length = BLOCK_SIZE) :
      Step s { s with
        submitted := s.submitted ++ [f], toSubmit := rest,
        block := [], queue := s.queue ++ [s.block ++ [f]],
        phase := PPhase.mustSend }
  /-- `self.sender.send(FrameMessage::Frame)` (line 363). -/
  | sendFrame (s : Sys α) (hph : s.phase = PPhase.mustSend) :
      Step s { s with
        chan := s.chan ++ [FrameMessage.Frame], phase := PPhase.idle }
  /-- `end` (366-369): the producer has stopped submitting and sends
  `FrameMessage::End` (line 367). -/
  | sendEnd (s : Sys α) (hts : s.toSubmit = []) (hph : s.phase = PPhase.idle) :
      Step s { s with
        chan := s.chan ++ [FrameMessage.End], phase := PPhase.done }
  /-- Worker receives `FrameMessage::End` (lines 333-335) and breaks. -/
  | recvEnd (s : Sys α) (ms : List FrameMessage)
      (hch : s.chan = FrameMessage.End :: ms) (hw : s.wstop = none) :
      Step s { s with chan := ms, wstop := some StopReason.endMsg }
  /-- Worker receives `FrameMessage::Frame`, pops the front block
  (lines 336-341) and writes its frames in order (lines 342-345). -/
  | recvFramePop (s : Sys α) (ms : List FrameMessage) (b : List α)
      (q : List (List α))
      (hch : s.chan = FrameMessage.Frame :: ms) (hq : s.queue = b :: q)
      (hw : s.wstop = none) :
      Step s { s with chan := ms, queue := q, written := s.written ++ b }
  /-- Worker receives `FrameMessage::Frame` but `pop_front` returns `None`:
  the break on line 338. -/
  | recvFrameEmpty (s : Sys α) (ms : List FrameMessage)
      (hch : s.chan = FrameMessage.Frame :: ms) (hq : s.queue = [])
      (hw : s.wstop = none) :
      Step s { s with chan := ms, wstop := some StopReason.emptyQueue }

/-- States reachable from a fresh controller with intended frames `fs`. -/
def Reach (fs : List α) (s : Sys α) : Prop :=
  Relation.ReflTransGen Step (initSys fs) s

/-- Number of `FrameMessage::Frame` values in a message list. -/
def countFrames : List FrameMessage → Nat
  | [] => 0
  | FrameMessage.Frame :: ms => countFrames ms + 1
  | FrameMessage.End :: ms => countFrames ms

/-- One when a seal has been enqueued whose `Frame` message is still
pending, zero otherwise. -/
def sealsPending : PPhase → Nat
  | PPhase.mustSend => 1
  | _ => 0

/-- Inductive invariant of the interleaved model: conservation of frames
in submission order, the in-flight `Frame` messages never outnumber the
queued blocks, and the worker has never taken the empty-pop break. -/
def Inv (s : Sys α) : Prop :=
  s.written ++ s.queue.flatten ++ s.block = s.submitted ∧
  countFrames s.chan + sealsPending s.phase ≤ s.queue.length ∧
  s.wstop ≠ some StopReason.emptyQueue

/-! ### Producer-side lemmas -/

theorem submitAll_append (s : PState α) (fs gs : List α) :
    submitAll s (fs ++ gs) = submitAll (submitAll s fs) gs := by
  simp only [submitAll, List.foldl_append]

/-- Filling strictly below capacity never seals: `write_frame` only grows
the open block. -/
theorem fill_below (fs : List α) :
    ∀ s : PState α, s.block.length + fs.length < BLOCK_SIZE →
      submitAll s fs = { s with block := s.block ++ fs } := by
  induction fs with
  | nil => intro s h; simp [submitAll]
  | cons f rest ih =>
    intro s h
    have hstep : writeFrame s f = { s with block := s.block ++ [f] } := by
      simp only [writeFrame]
      rw [if_neg]
      simp only [List.length_append, List.length_cons, List.length_nil]
      simp only [List.length_cons] at h
      omega
    have h2 : (({ s with block := s.block ++ [f] } : PState α)).block.length
        + rest.length < BLOCK_SIZE := by
      simp only [List.length_append, List.length_cons, List.length_nil]
      simp only [List.length_cons] at h
      omega
    calc submitAll s (f :: rest)
        = submitAll (writeFrame s f) rest := by
          simp only [submitAll, List.foldl_cons]
      _ = submitAll ({ s with block := s.block ++ [f] } : PState α) rest := by
          rw [hstep]
      _ = { s with block := (s.block ++ [f]) ++ rest } := ih _ h2
      _ = { s with block := s.block ++ (f :: rest) } := by
          simp [List.append_assoc]

/-- Filling exactly to capacity seals exactly once, at the last call: the
combined block moves to the queue and one `Frame` message is sent. -/
theorem fill_exact (fs : List α) :
    ∀ s : PState α, fs ≠ [] → s.block.length + fs.length = BLOCK_SIZE →
      submitAll s fs =
        ⟨[], s.queue ++ [s.block ++ fs], s.msgs ++ [FrameMessage.Frame]⟩ := by
  induction fs with
  | nil => intro s hne _; exact absurd rfl hne
  | cons f rest ih =>
    intro s _ hlen
    simp only [List.length_cons] at hlen
    cases rest with
    | nil =>
      have hstep : writeFrame s f =
          ⟨[], s.queue ++ [s.block ++ [f]], s.msgs ++ [FrameMessage.Frame]⟩ := by
        simp only [writeFrame]
        rw [if_pos]
        simp only [List.length_append, List.length_cons, List.length_nil] at hlen ⊢
        omega
      simp only [submitAll, List.foldl_cons, List.foldl_nil] at *
      exact hstep
    | cons g gs =>
      have hstep : writeFrame s f = { s with block := s.block ++ [f] } := by
        simp only [writeFrame]
        rw [if_neg]
        simp only [List.length_append, List.length_cons, List.length_nil]
        simp only [List.length_cons] at hlen
        omega
      have h2 : (({ s with block := s.block ++ [f] } : PState α)).block.length
          + (g :: gs).length = BLOCK_SIZE := by
        simp only [List.length_append, List.length_cons, List.length_nil] at *
        omega
      calc submitAll s (f :: g :: gs)
          = submitAll ({ s with block := s.block ++ [f] } : PState α) (g :: gs) := by
            rw [show submitAll s (f :: g :: gs)
                = submitAll (writeFrame s f) (g :: gs) from by
              simp only [submitAll, List.foldl_cons], hstep]
        _ = ⟨[], s.queue ++ [(s.block ++ [f]) ++ (g :: gs)],
              s.msgs ++ [FrameMessage.Frame]⟩ :=
            ih _ (List.cons_ne_nil g gs) h2
        _ = ⟨[], s.queue ++ [s.block ++ (f :: g :: gs)],
              s.msgs ++ [FrameMessage.Frame]⟩ := by
            simp [List.append_assoc]

/-- Characterization of the producer state after submitting `fs` from an
empty open block: the queue has grown by the list `c` of sealed blocks
(one `Frame` message sent per seal, `fs.length / BLOCK_SIZE` in total,
jointly holding the longest `BLOCK_SIZE`-multiple prefix of `fs`) and the
open block holds the remaining trailing frames. -/
theorem submit_chunks (n : Nat) :
    ∀ fs : List α, fs.length ≤ n →
    ∀ (q : List (List α)) (m : List FrameMessage),
      ∃ c : List (List α),
        submitAll ⟨[], q, m⟩ fs =
          ⟨fs.drop (BLOCK_SIZE * (fs.length / BLOCK_SIZE)), q ++ c,
            m ++ List.replicate (fs.length / BLOCK_SIZE) FrameMessage.Frame⟩ ∧
        c.flatten = fs.take (BLOCK_SIZE * (fs.length / BLOCK_SIZE)) ∧
        c.length = fs.length / BLOCK_SIZE := by
  induction n with
  | zero =>
    intro fs h q m
    have hfs : fs = [] := List.eq_nil_of_length_eq_zero (Nat.le_zero.mp h)
    subst hfs
    exact ⟨[], by simp [submitAll], by simp, by simp⟩
  | succ n ih =>
    intro fs h q m
    by_cases hge : BLOCK_SIZE ≤ fs.length
    · have hB : BLOCK_SIZE = 240 := rfl
      have htake_len : (fs.take BLOCK_SIZE).length = BLOCK_SIZE := by
        rw [List.length_take]; omega
      have hsub : submitAll (⟨[], q, m⟩ : PState α) fs
          = submitAll (submitAll ⟨[], q, m⟩ (fs.take BLOCK_SIZE))
              (fs.drop BLOCK_SIZE) := by
        conv_lhs => rw [← List.take_append_drop BLOCK_SIZE fs]
        rw [submitAll_append]
      have hne : fs.take BLOCK_SIZE ≠ [] := by
        intro hcon
        rw [hcon] at htake_len
        simp [hB] at htake_len
      have hfill := fill_exact (fs.take BLOCK_SIZE) (⟨[], q, m⟩ : PState α)
        hne (by simpa using htake_len)
      simp only [List.nil_append] at hfill
      obtain ⟨c, hc1, hc2, hc3⟩ := ih (fs.drop BLOCK_SIZE)
        (by rw [List.length_drop]; simp only [hB] at hge ⊢; omega)
        (q ++ [fs.take BLOCK_SIZE]) (m ++ [FrameMessage.Frame])
      rw [List.length_drop] at hc1 hc2 hc3
      have hdiv : fs.length / BLOCK_SIZE = (fs.length - BLOCK_SIZE) / BLOCK_SIZE + 1 := by
        simp only [hB] at hge ⊢; omega
      refine ⟨fs.take BLOCK_SIZE :: c, ?_, ?_, ?_⟩
      · rw [hsub, hfill, hc1]
        have hdrop : (fs.drop BLOCK_SIZE).drop
            (BLOCK_SIZE * ((fs.length - BLOCK_SIZE) / BLOCK_SIZE))
            = fs.drop (BLOCK_SIZE * (fs.length / BLOCK_SIZE)) := by
          rw [List.drop_drop, hdiv]
          congr 1
          simp only [hB]; omega
        rw [hdrop, hdiv, List.replicate_succ]
        simp [List.append_assoc]
      · simp only [List.flatten_cons, hc2]
        rw [hdiv]
        have : BLOCK_SIZE * ((fs.length - BLOCK_SIZE) / BLOCK_SIZE + 1)
            = BLOCK_SIZE + BLOCK_SIZE * ((fs.length - BLOCK_SIZE) / BLOCK_SIZE) := by
          rw [hB]; omega
        rw [this, List.take_add]
      · simp only [List.length_cons, hc3, hdiv]
    · have hdiv : fs.length / BLOCK_SIZE = 0 :=
        Nat.div_eq_of_lt (by omega)
      have hfill := fill_below fs (⟨[], q, m⟩ : PState α)
        (by simpa using Nat.lt_of_not_le hge)
      refine ⟨[], ?_, by simp [hdiv], by simp [hdiv]⟩
      rw [hfill, hdiv]
      simp

/-- Specialization to a fresh controller. -/
theorem submit_init (fs : List α) :
    ∃ c : List (List α),
      submitAll (initPState α) fs =
        ⟨fs.drop (BLOCK_SIZE * (fs.length / BLOCK_SIZE)), c,
          List.replicate (fs.length / BLOCK_SIZE) FrameMessage.Frame⟩ ∧
      c.flatten = fs.take (BLOCK_SIZE * (fs.length / BLOCK_SIZE)) ∧
      c.length = fs.length / BLOCK_SIZE := by
  obtain ⟨c, h1, h2, h3⟩ := submit_chunks fs.length fs le_rfl [] []
  exact ⟨c, by simpa [initPState] using h1, h2, h3⟩

/-! ### Worker-loop lemmas (sequential trace) -/

/-- Draining: with `n` `Frame` messages in front of the trace and at least
`n` queued blocks, the worker forwards exactly the first `n` blocks, in
FIFO order, then exits on `End` with everything else undelivered. -/
theorem workerRun_drain (n : Nat) :
    ∀ (q : List (List α)) (ms : List FrameMessage), n ≤ q.length →
      workerRun (List.replicate n FrameMessage.Frame ++ FrameMessage.End :: ms) q
        = ((q.take n).flatten, StopReason.endMsg) := by
  induction n with
  | zero =>
    intro q ms _
    simp [workerRun]
  | succ n ih =>
    intro q ms h
    cases q with
    | nil => simp at h
    | cons b rest =>
      have hn : n ≤ rest.length := by simpa using h
      simp only [List.replicate_succ, List.cons_append, workerRun, List.append_eq]
      rw [ih rest ms hn]
      simp [List.take_succ_cons, List.flatten_cons]

/-- The delivered frames of a full sequential run are exactly the longest
`BLOCK_SIZE`-multiple prefix of the submitted frames. -/
theorem delivered_eq (fs : List α) :
    delivered fs = fs.take (BLOCK_SIZE * (fs.length / BLOCK_SIZE)) := by
  obtain ⟨c, h1, h2, h3⟩ := submit_init fs
  have hrun : runToShutdown fs = (c.flatten, StopReason.endMsg) := by
    unfold runToShutdown
    rw [h1]
    simp only [endSignal]
    have : (List.replicate (fs.length / BLOCK_SIZE) FrameMessage.Frame)
        ++ [FrameMessage.End]
        = List.replicate c.length FrameMessage.Frame
          ++ FrameMessage.End :: [] := by
      rw [h3]
    simp only [this]
    rw [workerRun_drain c.length c [] le_rfl, List.take_length]
  simp [delivered, hrun, h2]

/-! ### Invariant of the interleaved model -/

theorem countFrames_append (xs ys : List FrameMessage) :
    countFrames (xs ++ ys) = countFrames xs + countFrames ys := by
  induction xs with
  | nil => simp [countFrames]
  | cons x xs ih =>
    cases x with
    | Frame => simp [countFrames, ih]; omega
    | End => simp [countFrames, ih]

theorem inv_init (fs : List α) : Inv (initSys fs) := by
  refine ⟨rfl, ?_, ?_⟩ <;> simp [initSys, countFrames, sealsPending]

theorem inv_step {s t : Sys α} (hs : Inv s) (hstep : Step s t) : Inv t := by
  obtain ⟨h1, h2, h3⟩ := hs
  cases hstep with
  | submitNoSeal f rest hts hph hlen =>
    refine ⟨?_, ?_, h3⟩
    · simp only [List.append_assoc] at h1 ⊢
      rw [← h1]
      simp [List.append_assoc]
    · exact h2
  | submitSeal f rest hts hph hlen =>
    refine ⟨?_, ?_, h3⟩
    · simp only [List.flatten_append, List.flatten_cons, List.flatten_nil,
        List.append_nil, List.append_assoc] at h1 ⊢
      rw [← h1]
      simp [List.append_assoc]
    · rw [hph] at h2
      simp only [sealsPending, List.length_append, List.length_cons,
        List.length_nil] at h2 ⊢
      omega
  | sendFrame hph =>
    refine ⟨h1, ?_, h3⟩
    · rw [hph] at h2
      simp only [sealsPending, countFrames_append, countFrames] at h2 ⊢
      omega
  | sendEnd hts hph =>
    refine ⟨h1, ?_, h3⟩
    · rw [hph] at h2
      simp only [sealsPending, countFrames_append, countFrames] at h2 ⊢
      omega
  | recvEnd ms hch hw =>
    refine ⟨h1, ?_, by simp⟩
    · rw [hch] at h2
      simp only [countFrames] at h2 ⊢
      omega
  | recvFramePop ms b q hch hq hw =>
    refine ⟨?_, ?_, by simp [hw]⟩
    · rw [hq] at h1
      simp only [List.flatten_cons, List.append_assoc] at h1 ⊢
      exact h1
    · rw [hch, hq] at h2
      simp only [countFrames, List.length_cons] at h2 ⊢
      omega
  | recvFrameEmpty ms hch hq hw =>
    exfalso
    rw [hch, hq] at h2
    simp only [countFrames, List.length_nil] at h2
    omega

theorem reach_inv {fs : List α} {s : Sys α} (h : Reach fs s) : Inv s := by
  induction h with
  | refl => exact inv_init fs
  | tail hsteps hstep ih => exact inv_step ih hstep

theorem drainBlock_id (o : Nat → WriteResult) (b : List α) :
    ∀ i : Nat, drainBlock o i b = b := by
  induction b with
  | nil => intro i; simp [drainBlock]
  | cons f rest ih => intro i; simp [drainBlock, ih]

theorem drainBlocks_flatten (o : Nat → WriteResult) (bs : List (List α)) :
    ∀ i : Nat, drainBlocks o i bs = bs.flatten := by
  induction bs with
  | nil => intro i; simp [drainBlocks]
  | cons b bs ih => intro i; simp [drainBlocks, drainBlock_id, ih]

/-! ### Claims -/

/-- C1: for every sequence of frames handed to
`VideoBackendController::write_frame` by the single producer, in every
reachable interleaving with the worker the frames passed to the sink are
exactly a prefix of the submitted sequence: nothing is reordered or
duplicated, blocks leave the queue FIFO, frames inside a block are
forwarded in their original order, and the frames not yet delivered sit,
still in submission order, in the queue followed by the open block. -/
theorem frames_delivered_in_submission_order (fs : List α) (s : Sys α)
    (h : Reach fs s) :
    s.written ++ s.queue.flatten ++ s.block = s.submitted ∧
    s.written = s.submitted.take s.written.length := by
  obtain ⟨h1, _, _⟩ := reach_inv h
  refine ⟨h1, ?_⟩
  rw [← h1, List.append_assoc, List.take_left]

/-- Witness for C1: a concrete reachable state, one `write_frame` step
after construction. -/
theorem frames_delivered_in_submission_order_witness :
    Reach [5] (⟨[5], [], PPhase.idle, [5], [], [], [], none⟩ : Sys Nat) ∧
    (([] : List Nat) ++ ([] : List (List Nat)).flatten ++ [5] = [5] ∧
      ([] : List Nat) = [5].take ([] : List Nat).length) :=
  have hstep : Step (initSys [5])
      (⟨[5], [], PPhase.idle, [5], [], [], [], none⟩ : Sys Nat) :=
    Step.submitNoSeal (initSys [5]) 5 [] rfl rfl (by decide)
  ⟨Relation.ReflTransGen.single hstep,
    frames_delivered_in_submission_order [5] _ (Relation.ReflTransGen.single hstep)⟩

/-- C2: the code loses the trailing partial block. Submitting k = 300
frames (not a multiple of N = 240) and then calling
`VideoBackendController::end` delivers only the 240 frames of the single
sealed block to the sink, not all 300 as the claim requires: the last 60
frames stay in the open block, which `end` neither seals nor flushes. -/
theorem trailing_frames_dropped_at_300 :
    delivered (List.range 300) = List.range 240 ∧
    (delivered (List.range 300)).length = 240 := by
  have h := delivered_eq (List.range 300)
  have hlen : (List.range 300).length = 300 := by simp
  have hexp : BLOCK_SIZE * ((List.range 300).length / BLOCK_SIZE) = 240 := by
    rw [hlen]; decide
  rw [hexp] at h
  have heq : delivered (List.range 300) = List.range 240 := by
    rw [h, List.take_range]
    norm_num
  exact ⟨heq, by rw [heq]; simp⟩

/-- C3: baseline behaviour at shutdown. `end` does not touch the open
block or the queue, the open block still holds the last
`fs.length % BLOCK_SIZE` submitted frames, and the sink receives exactly
the frames before them — the trailing partial block is never sealed,
enqueued, or flushed. -/
theorem trailing_partial_batch_never_flushed (fs : List α) :
    (endSignal (submitAll (initPState α) fs)).block
      = (submitAll (initPState α) fs).block ∧
    (endSignal (submitAll (initPState α) fs)).queue
      = (submitAll (initPState α) fs).queue ∧
    (submitAll (initPState α) fs).block
      = fs.drop (fs.length - fs.length % BLOCK_SIZE) ∧
    delivered fs = fs.take (fs.length - fs.length % BLOCK_SIZE) := by
  have hB : BLOCK_SIZE = 240 := rfl
  have harith : BLOCK_SIZE * (fs.length / BLOCK_SIZE)
      = fs.length - fs.length % BLOCK_SIZE := by
    simp only [hB]; omega
  obtain ⟨c, h1, _, _⟩ := submit_init fs
  refine ⟨rfl, rfl, ?_, ?_⟩
  · rw [h1, ← harith]
  · rw [delivered_eq, harith]

/-- C4: after exactly `BLOCK_SIZE` calls to `write_frame` on a fresh
controller, the queue holds exactly the one sealed block (the 240
submitted frames, in order), the open block is empty, and exactly one
`FrameMessage::Frame` was sent; after any strictly smaller number of
calls nothing has been sealed, enqueued, or sent, so sealing happens
exactly at the call that reaches capacity. -/
theorem batch_sealing_at_capacity (fs : List α) (hlen : fs.length = BLOCK_SIZE) :
    submitAll (initPState α) fs = ⟨[], [fs], [FrameMessage.Frame]⟩ ∧
    ∀ m : Nat, m < BLOCK_SIZE →
      submitAll (initPState α) (fs.take m) = ⟨fs.take m, [], []⟩ := by
  constructor
  · have hne : fs ≠ [] := by
      intro hcon
      rw [hcon] at hlen
      simp [BLOCK_SIZE] at hlen
    have h := fill_exact fs (initPState α) hne (by simp [initPState, hlen])
    simpa [initPState] using h
  · intro m hm
    have h := fill_below (fs.take m) (initPState α)
      (by simp [initPState, List.length_take, hlen]; omega)
    simpa [initPState] using h

/-- Witness for C4: the 240 frames 0..239. -/
theorem batch_sealing_at_capacity_witness :
    (List.range 240).length = BLOCK_SIZE ∧
    (submitAll (initPState Nat) (List.range 240)
        = ⟨[], [List.range 240], [FrameMessage.Frame]⟩ ∧
      ∀ m : Nat, m < BLOCK_SIZE →
        submitAll (initPState Nat) ((List.range 240).take m)
          = ⟨(List.range 240).take m, [], []⟩) :=
  ⟨by simp [BLOCK_SIZE],
    batch_sealing_at_capacity (List.range 240) (by simp [BLOCK_SIZE])⟩

/-- C5: in `VideoBackend::write_frame_background`, whenever the dequeue
attempt finds the queue empty the shared state is set to `Sleeping` and
the thread blocks on the wake channel without exiting; a
`FrameMessage::Frame` that arrives while the queue is still empty — a
spurious wake — just makes the loop try to drain again (re-check the
queue, and block again if it is still empty), never exiting the loop;
only `FrameMessage::End` exits. -/
theorem sleeping_worker_spurious_wake_retries (α : Type)
    (st : VideoBackendState) (ms : List FrameMessage) :
    wfbRun st ([] : List α) [] = ([], VideoBackendState.Sleeping, false) ∧
    wfbRun st ([] : List α) (FrameMessage.Frame :: ms)
      = wfbRun VideoBackendState.Sleeping ([] : List α) ms ∧
    wfbRun st ([] : List α) (FrameMessage.End :: ms)
      = ([], VideoBackendState.Sleeping, true) := by
  refine ⟨?_, ?_, ?_⟩ <;> simp [wfbRun]

/-- C6: when the worker spawned in `VideoBackendController::new` receives
`FrameMessage::End` it exits the loop at once, no matter how many sealed
blocks remain queued, and makes no further sink writes: after `n`
delivered blocks followed by `End`, the sink has exactly the frames of
the first `n` blocks and everything still queued is never delivered. -/
theorem end_message_exits_unconditionally (n : Nat) (ms : List FrameMessage)
    (q : List (List α)) (h : n ≤ q.length) :
    workerRun (FrameMessage.End :: ms) q = ([], StopReason.endMsg) ∧
    workerRun (List.replicate n FrameMessage.Frame ++ FrameMessage.End :: ms) q
      = ((q.take n).flatten, StopReason.endMsg) :=
  ⟨rfl, workerRun_drain n q ms h⟩

/-- Witness for C6: two queued blocks, one delivered before `End`; the
second block is dropped. -/
theorem end_message_exits_unconditionally_witness :
    1 ≤ ([[10], [20]] : List (List Nat)).length ∧
    (workerRun (FrameMessage.End :: []) [[10], [20]] = ([], StopReason.endMsg) ∧
      workerRun (List.replicate 1 FrameMessage.Frame ++ FrameMessage.End :: [])
          [[10], [20]]
        = ((([[10], [20]] : List (List Nat)).take 1).flatten,
            StopReason.endMsg)) :=
  ⟨by decide, end_message_exits_unconditionally 1 [] [[10], [20]] (by decide)⟩

/-- C7: shutdown with zero submitted frames terminates: `end` sends only
`FrameMessage::End`, the worker's loop consumes it and exits via the
`End` arm (the run function is total, so the worker cannot hang), and
nothing is written. The join in `end` then returns because the worker
has exited. -/
theorem shutdown_with_zero_frames_terminates (α : Type) :
    (endSignal (submitAll (initPState α) [])).msgs = [FrameMessage.End] ∧
    runToShutdown ([] : List α) = ([], StopReason.endMsg) :=
  ⟨rfl, rfl⟩

/-- C8: under the enqueue-before-send discipline of `write_frame`
(modelled by the `Step` relation), in every reachable state the worker
has never taken the break-on-empty-pop branch, the in-flight `Frame`
messages never outnumber the queued blocks, and any pending `Frame`
message at the head of the channel finds a non-empty queue — so the
`None` arm of `pop_front` is unreachable and the worker never terminates
early, dropping sealed blocks, before `End` or disconnect. -/
theorem worker_never_breaks_on_empty_queue (fs : List α) (s : Sys α)
    (h : Reach fs s) :
    s.wstop ≠ some StopReason.emptyQueue ∧
    countFrames s.chan + sealsPending s.phase ≤ s.queue.length ∧
    ∀ ms : List FrameMessage,
      s.chan = FrameMessage.Frame :: ms → s.queue ≠ [] := by
  obtain ⟨_, h2, h3⟩ := reach_inv h
  refine ⟨h3, h2, ?_⟩
  intro ms hch hq
  rw [hch, hq] at h2
  simp only [countFrames, List.length_nil] at h2
  omega

/-- Witness for C8: the initial state of a fresh controller. -/
theorem worker_never_breaks_on_empty_queue_witness :
    Reach [7] (initSys [7]) ∧
    ((initSys [7]).wstop ≠ some StopReason.emptyQueue ∧
      countFrames (initSys [7]).chan + sealsPending (initSys [7]).phase
          ≤ (initSys [7]).queue.length ∧
      ∀ ms : List FrameMessage,
        (initSys [7]).chan = FrameMessage.Frame :: ms →
          (initSys [7]).queue ≠ []) :=
  ⟨Relation.ReflTransGen.refl,
    worker_never_breaks_on_empty_queue [7] (initSys [7])
      Relation.ReflTransGen.refl⟩

/-- C9: a sink write failure is invisible to the rest of the pipeline:
the worker's delivery of queued blocks is the same function of the
frames for every assignment of `write_all` outcomes — every frame of
every block is still forwarded, so the failure is neither escalated nor
changes the handling of subsequent frames or blocks. -/
theorem sink_write_failure_not_escalated (o1 o2 : Nat → WriteResult)
    (i1 i2 : Nat) (bs : List (List α)) :
    drainBlocks o1 i1 bs = drainBlocks o2 i2 bs ∧
    drainBlocks o1 i1 bs = bs.flatten :=
  ⟨by rw [drainBlocks_flatten, drainBlocks_flatten],
    drainBlocks_flatten o1 bs i1⟩

/-- C10: the code evaluated at the failing input. When the worker thread
panicked, `JoinHandle::join` in `end` returns `Err`, but `end` discards
the join result and returns the unit value either way: the caller
observes exactly what a successful join produces, so the failure is
silently ignored, not surfaced. -/
theorem end_join_failure_not_surfaced :
    endReturn JoinResult.panicked = endReturn JoinResult.ok := rfl

end Gmanim
